import Mathlib

/-!
Verification of the consensus sentiment-labeling pipeline
(`labeling/labeler.py`, `labeling/split_data.py`, `labeling/config.py`,
`youtube_crawler/label_comments_orchestrator.py`,
`youtube_crawler/merge_labeled_comments.py`).

The Python code is shallowly embedded: floats become exact rationals,
pandas frames become lists, the remote model and the random number
generator become explicit oracles passed as arguments, and the file
system becomes an explicit operation trace.
-/

set_option maxHeartbeats 1000000

/-- The three valid sentiment labels (`LABELS` in `labeler.py`). -/
inductive SLab where
  | positive
  | neutral
  | negative
deriving DecidableEq, Repr

/-- A label as carried in a parsed result: one of the three valid labels,
or the `"error"` marker the parser assigns to invalid items. -/
inductive Lab where
  | ofS (s : SLab)
  | err
deriving DecidableEq, Repr

/-- `ClassificationResult`: a parsed per-comment result, `{label, confidence}`.
The confidence dict is keyed by exactly the three valid labels. -/
structure ClassificationResult where
  label : Lab
  conf : SLab → ℚ

/- Configuration constants from `labeling/config.py`. -/

def CONF_FAST_ACCEPT : ℚ := 0.985

def AUDIT_RATE : ℚ := 0.12

def MARGIN_THRESHOLD : ℚ := 0.2

def WEIGHT_FAST : ℚ := 1.0

def WEIGHT_PRO : ℚ := 2.0

def BATCH_SIZE : ℕ := 5

def MAX_RETRIES : ℕ := 3

def CHECKPOINT_INTERVAL : ℕ := 50

/-- Lowercasing, `str.lower()` in Python (ASCII as used by the labels). -/
def strLower (s : String) : String := ⟨s.data.map Char.toLower⟩

/-- One decoded item of the model's JSON array: either not a dict at all, or a
dict with an optional `label` field and a `confidence` dict of numbers. -/
inductive Item where
  | notDict
  | dict (label : Option String) (conf : List (String × ℚ))
deriving DecidableEq, Repr

/-- A model response after the fenced-code stripping stage: either it failed
to decode as JSON (the `except` path) or it decoded to a list of items
(a single top-level dict is wrapped into a one-element list by the code). -/
inductive Resp where
  | unparsable
  | parsed (items : List Item)
deriving DecidableEq, Repr

/-- `confidence.get(lab, 0.0)` on the decoded confidence dict. -/
def confLookup (conf : List (String × ℚ)) (lab : String) : ℚ :=
  (conf.lookup lab).getD 0

/-- The label-normalisation steps of `parse_model_response`
(`labeler.py` lines 109-114): lowercase, map `"irrelevant"` to `"neutral"`,
and map anything outside `LABELS` to `"error"`. -/
def parseLabel (raw : String) : Lab :=
  let s := strLower raw
  if s = "irrelevant" then .ofS .neutral
  else if s = "positive" then .ofS .positive
  else if s = "neutral" then .ofS .neutral
  else if s = "negative" then .ofS .negative
  else .err

/-- The all-`error` placeholder result with the equal `1/3` split. -/
def errorResult : ClassificationResult :=
  { label := .err, conf := fun _ => 1 / 3 }

/-- The per-item body of `parse_model_response` (`labeler.py` lines 101-137):
a non-dict item becomes an `error` result with all-zero confidence; a dict
item has its label normalised and its confidence values read with default
`0.0`, then divided by their total if the total is positive, else replaced
by the equal `1/3` split. -/
def parseItem : Item → ClassificationResult
  | .notDict => { label := .err, conf := fun _ => 0 }
  | .dict lab conf =>
    let label := parseLabel (lab.getD "")
    let cp := confLookup conf "positive"
    let cn := confLookup conf "neutral"
    let cg := confLookup conf "negative"
    let total := cp + cn + cg
    if 0 < total then
      { label := label
        conf := fun s => (match s with
          | .positive => cp
          | .neutral => cn
          | .negative => cg) / total }
    else
      { label := label, conf := fun _ => 1 / 3 }

/-- `parse_model_response` (`labeler.py` lines 75-154) after JSON decoding:
an undecodable response yields `num_comments` error results; a decoded list
is truncated to `num_comments`, each item parsed, and the list right-padded
with error results up to `num_comments`. -/
def parse_model_response (r : Resp) (num_comments : ℕ) : List ClassificationResult :=
  match r with
  | .unparsable => List.replicate num_comments errorResult
  | .parsed items =>
    let ps := (items.take num_comments).map parseItem
    ps ++ List.replicate (num_comments - ps.length) errorResult

/-- The retry loop of `call_model_batch` (`labeler.py` lines 171-189).
`oracle k` is the outcome of attempt `k`: `none` when the remote call raises,
`some r` when it returns a response `r`. The result is paired with the number
of attempts consumed. `fuel` is `MAX_RETRIES - attempt` and only bounds the
recursion. -/
def call_go (oracle : ℕ → Option Resp) (num attempt : ℕ) : ℕ → List ClassificationResult × ℕ
  | 0 => (List.replicate num errorResult, attempt)
  | fuel + 1 =>
    match oracle attempt with
    | some r => (parse_model_response r num, attempt + 1)
    | none =>
      if attempt < MAX_RETRIES - 1 then
        call_go oracle num (attempt + 1) fuel
      else
        (List.replicate num errorResult, attempt + 1)

/-- `call_model_batch` (`labeler.py` lines 157-189): run the retry loop from
attempt `0`. Returns the parsed results and the number of attempts made. -/
def call_model_batch (oracle : ℕ → Option Resp) (num : ℕ) : List ClassificationResult × ℕ :=
  call_go oracle num 0 MAX_RETRIES

/-- Decision strategies of the consensus engine. -/
inductive Strategy where
  | fast_accept
  | agreement
  | soft_voting
  | human_review
deriving DecidableEq, Repr

/-- `ConsensusDecision`: the per-record outcome written by `process_batch`. -/
structure ConsensusDecision where
  final_label : Option Lab
  strategy : Strategy
  margin : Option ℚ
deriving DecidableEq, Repr

/-- `fast_res["confidence"].get(label, 0.0)` where `label = fast_res["label"]`
(`labeler.py` lines 277-278): the confidence dict holds only the three valid
labels, so looking up `"error"` yields the default `0.0`. -/
def labelConf (r : ClassificationResult) : ℚ :=
  match r.label with
  | .ofS s => r.conf s
  | .err => 0

/-- The unnormalised weighted score of one label
(`labeler.py` lines 203-216): each tier contributes
`confidence[label] * weight` only when its result is not `error`. -/
def scoreRaw (f p : ClassificationResult) (l : SLab) : ℚ :=
  (if f.label ≠ .err then f.conf l * WEIGHT_FAST else 0) +
    (if p.label ≠ .err then p.conf l * WEIGHT_PRO else 0)

/-- `total_weight`: the sum of the weights of the non-`error` tiers. -/
def totalWeight (f p : ClassificationResult) : ℚ :=
  (if f.label ≠ .err then WEIGHT_FAST else 0) +
    (if p.label ≠ .err then WEIGHT_PRO else 0)

/-- The normalised score (`labeler.py` lines 219-221): divided by
`total_weight` when it is positive, left unchanged otherwise. -/
def scoreNorm (f p : ClassificationResult) (l : SLab) : ℚ :=
  if 0 < totalWeight f p then scoreRaw f p l / totalWeight f p
  else scoreRaw f p l

/-- The loop body of `weighted_soft_voting` (`labeler.py` lines 201-237) for
one (fast, pro) pair. `sorted(scores.items(), key=..., reverse=True)` is
Python's stable sort on the insertion-ordered items
`[(positive, _), (neutral, _), (negative, _)]`; `List.insertionSort` with
the relation `a.2 ≥ b.2` places an element before all later elements of
equal or smaller score, which is exactly that stable descending order.
The `[a]`/`[]` cases mirror the `len(sorted_scores) > 1` guard and are
unreachable on the three-element list. -/
def soft_vote_one (f p : ClassificationResult) : ConsensusDecision :=
  match ([(.positive, scoreNorm f p .positive),
      (.neutral, scoreNorm f p .neutral),
      (.negative, scoreNorm f p .negative)] : List (SLab × ℚ)).insertionSort
      (fun a b => a.2 ≥ b.2) with
  | a :: b :: _ =>
    let margin := a.2 - b.2
    if MARGIN_THRESHOLD ≤ margin then
      { final_label := some (.ofS a.1), strategy := .soft_voting, margin := some margin }
    else
      { final_label := none, strategy := .human_review, margin := some margin }
  | [a] =>
    let margin := a.2 - 0
    if MARGIN_THRESHOLD ≤ margin then
      { final_label := some (.ofS a.1), strategy := .soft_voting, margin := some margin }
    else
      { final_label := none, strategy := .human_review, margin := some margin }
  | [] => { final_label := none, strategy := .human_review, margin := some 0 }

/-- `weighted_soft_voting` (`labeler.py` lines 192-239) over parallel lists. -/
def weighted_soft_voting (fs ps : List ClassificationResult) : List ConsensusDecision :=
  (fs.zip ps).map (fun fp => soft_vote_one fp.1 fp.2)

/-- The per-record decision logic of `process_batch`
(`labeler.py` lines 276-326). `draw` is the record's uniform random draw
(`random.random()`); `p` is the Pro-tier result for this record, consulted
only when the record is not fast-accepted. -/
def recordDecision (f : ClassificationResult) (draw : ℚ) (p : ClassificationResult) :
    ConsensusDecision :=
  if CONF_FAST_ACCEPT ≤ labelConf f ∧ ¬(draw < AUDIT_RATE) then
    { final_label := some f.label, strategy := .fast_accept, margin := none }
  else if f.label = p.label ∧ f.label ≠ .err then
    { final_label := some f.label, strategy := .agreement, margin := none }
  else
    soft_vote_one f p

/-- `process_batch` (`labeler.py` lines 242-328) with the remote calls and
randomness supplied as oracles: `fast` is the Fast-tier result list for the
batch, `draws i` the audit draw of record `i`, and `pro i` the Pro-tier
result of record `i` (as delivered by the second `call_model_batch` on the
subsequence of records needing it). -/
def process_batch (fast : List ClassificationResult) (draws : ℕ → ℚ)
    (pro : ℕ → ClassificationResult) : List ConsensusDecision :=
  (List.range fast.length).map
    (fun i => recordDecision (fast.getD i errorResult) (draws i) (pro i))

/-- `need_pro_indices` (`labeler.py` lines 273-295): the indices of the
records of the batch for which the Pro tier is called, i.e. those that are
not fast-accepted. -/
def need_pro_indices (fast : List ClassificationResult) (draws : ℕ → ℚ) : List ℕ :=
  (List.range fast.length).filter
    (fun i =>
      ¬(CONF_FAST_ACCEPT ≤ labelConf (fast.getD i errorResult) ∧ ¬(draws i < AUDIT_RATE)))

/-- `load_checkpoint` (`labeler.py` lines 331-340). The argument models the
checkpoint file: `none` when the file does not exist, `some none` when it
exists but cannot be parsed, `some (some last)` when it holds
`last_processed_idx = last`. -/
def load_checkpoint : Option (Option ℕ) → ℕ
  | some (some last) => last + 1
  | some none => 0
  | none => 0

/-- Abstract content of a file in the checkpoint directory. -/
inductive FileData where
  | ckptData (last : ℕ)
  | rowsData
  | truncated
deriving DecidableEq, Repr

/-- A file-system operation: `truncateFile` is the effect of `open(f, "w")`
(the file exists and is empty from this point), `writeAll` the completed
write of the new content. -/
inductive FsOp where
  | truncateFile (path : String)
  | writeAll (path : String) (d : FileData)
deriving DecidableEq, Repr

/-- Apply one operation to a file-system state (`none` = file absent). -/
def applyOp (fs : String → Option FileData) : FsOp → String → Option FileData
  | .truncateFile p, q => if q = p then some .truncated else fs q
  | .writeAll p d, q => if q = p then some d else fs q

/-- Apply a trace of operations in order. -/
def applyOps (ops : List FsOp) (fs : String → Option FileData) : String → Option FileData :=
  ops.foldl applyOp fs

/-- Left-to-right replace-all on character lists (the semantics of Python's
`str.replace`), written with a fuel argument (one unit per character
consumed) so that it reduces structurally. -/
def replaceList (pat sub : List Char) : ℕ → List Char → List Char
  | _, [] => []
  | 0, s => s
  | n + 1, c :: cs =>
    if pat.isPrefixOf (c :: cs) ∧ pat ≠ [] then
      sub ++ replaceList pat sub n ((c :: cs).drop pat.length)
    else c :: replaceList pat sub n cs

/-- `checkpoint_file.replace(".json", "_results.csv")` (`labeler.py` line 356). -/
def results_file (f : String) : String :=
  ⟨replaceList ".json".data "_results.csv".data f.data.length f.data⟩

/-- The file-system trace of `save_checkpoint` (`labeler.py` lines 343-357):
`open(checkpoint_file, "w")` + `json.dump`, then
`results_df.to_csv(results_file)`, both writing the destination in place. -/
def save_checkpoint_ops (ckptFile : String) (last : ℕ) : List FsOp :=
  [.truncateFile ckptFile,
   .writeAll ckptFile (.ckptData last),
   .truncateFile (results_file ckptFile),
   .writeAll (results_file ckptFile) .rowsData]

/-- A trace is crash-safe for `path` when after every prefix of the trace
the file at `path` holds either its old content or some complete, parsable
checkpoint — i.e. no crash point exposes a partially written file. -/
def crashSafe (ops : List FsOp) (path : String) (fs0 : String → Option FileData) : Prop :=
  ∀ k, applyOps (ops.take k) fs0 path = fs0 path ∨
    ∃ n, applyOps (ops.take k) fs0 path = some (.ckptData n)

/-- The batch loop of `main` (`labeler.py` lines 402-433), reduced to the
indices it processes: starting at `s`, each iteration processes
`range(current, min(current + BATCH_SIZE, total))` and advances by
`BATCH_SIZE`, breaking once `current ≥ total`. The `ℕ` argument is the
iteration count `total_batches`. -/
def run_loop (total : ℕ) : ℕ → ℕ → List ℕ
  | _, 0 => []
  | s, n + 1 =>
    if s < total then
      List.range' s (min (s + BATCH_SIZE) total - s) ++ run_loop total (s + BATCH_SIZE) n
    else []

/-- The indices processed by one invocation of `main` on a shard of `total`
records resuming at `start` (`total_batches = ceil((total-start)/BATCH_SIZE)`,
`labeler.py` line 400). -/
def processed_indices (total start : ℕ) : List ℕ :=
  run_loop total start ((total - start + BATCH_SIZE - 1) / BATCH_SIZE)

/-- The `last_processed_idx` value passed to `save_checkpoint` after batch
`k` of a run starting at `start` (`labeler.py` line 425):
`current_idx + len(batch_results) - 1`, the index of the batch's last
record. -/
def checkpoint_after_batch (total start k : ℕ) : ℕ :=
  min (start + (k + 1) * BATCH_SIZE) total - 1

/-- The per-part sizes computed by `split_data` (`labeling/split_data.py`
lines 26-38) and `split_csv` (`label_comments_orchestrator.py` lines 85-94):
part `i` has `total // n` rows plus one when `i < total % n`. -/
def split_sizes (total n : ℕ) : List ℕ :=
  (List.range n).map (fun i => total / n + if i < total % n then 1 else 0)

/-- Successive slicing `data.iloc[start_idx:end_idx]` by a list of sizes. -/
def split_by_sizes {α : Type} : List ℕ → List α → List (List α)
  | [], _ => []
  | s :: ss, l => l.take s :: split_by_sizes ss (l.drop s)

/-- `split_data` (`labeling/split_data.py` lines 7-48) on an abstract row
list. -/
def split_data {α : Type} (l : List α) (n : ℕ) : List (List α) :=
  split_by_sizes (split_sizes l.length n) l

/-- Slicing with the `if part_size == 0: break` of `split_csv`
(`label_comments_orchestrator.py` lines 97-98). -/
def split_by_sizes_break {α : Type} : List ℕ → List α → List (List α)
  | [], _ => []
  | s :: ss, l => if s = 0 then [] else l.take s :: split_by_sizes_break ss (l.drop s)

/-- `split_csv` (`label_comments_orchestrator.py` lines 46-117): clamps
`num_parts` to the row count, then slices by the same sizes as `split_data`,
stopping at the first empty part. -/
def split_csv {α : Type} (l : List α) (n : ℕ) : List (List α) :=
  let m := if l.length < n then l.length else n
  split_by_sizes_break (split_sizes l.length m) l

/-- One row of a labeled shard output file:
`(comment_id, sentiment_label, sentiment_score)`
(`merge_labeled_comments.py` line 43). -/
abbrev LabeledRow := String × String × ℚ

/-- `drop_duplicates(subset=["comment_id"], keep="first")`
(`merge_labeled_comments.py` line 52): keep each row whose `comment_id` has
not been seen before, in order. -/
def drop_duplicates : List LabeledRow → List String → List LabeledRow
  | [], _ => []
  | r :: rs, seen =>
    if r.1 ∈ seen then drop_duplicates rs seen
    else r :: drop_duplicates rs (r.1 :: seen)

/-- `merged_labeled` (`merge_labeled_comments.py` lines 39-53): concatenate
the labeled files in sorted filename order and deduplicate by `comment_id`,
keeping the first occurrence. -/
def merged_labeled (files : List (List LabeledRow)) : List LabeledRow :=
  drop_duplicates files.flatten []

/-- The first row with the given `comment_id`. -/
def findRow (id : String) (rows : List LabeledRow) : Option LabeledRow :=
  rows.find? (fun r => r.1 = id)

/-- The number of rows with the given `comment_id`. -/
def countId (id : String) (rows : List LabeledRow) : ℕ :=
  rows.countP (fun r => r.1 = id)

/-- `merge_labeled_comments` (`merge_labeled_comments.py` lines 10-104) on
the case where the main CSV carries no prior sentiment columns: left-join
the deduplicated label mapping onto the main ids, then drop rows labeled
`neutral` with score exactly `0.0` (rows with no label survive the filter,
as NaN comparisons are false in pandas). -/
def merge_labeled_comments (mainIds : List String) (files : List (List LabeledRow)) :
    List (String × Option (String × ℚ)) :=
  let m := merged_labeled files
  (mainIds.map (fun id => (id, (findRow id m).map (fun r => r.2)))).filter
    (fun row => ¬(row.2 = some ("neutral", 0)))

/- Helper lemmas about the parser. -/

lemma parseItem_dict_label (lab : Option String) (conf : List (String × ℚ)) :
    (parseItem (.dict lab conf)).label = parseLabel (lab.getD "") := by
  simp only [parseItem]
  split <;> rfl

lemma parse_model_response_length (r : Resp) (n : ℕ) :
    (parse_model_response r n).length = n := by
  cases r with
  | unparsable => simp [parse_model_response]
  | parsed items =>
    simp only [parse_model_response, List.length_append, List.length_replicate,
      List.length_map]
    have h : (items.take n).length ≤ n := by
      simp [List.length_take]
    omega

/-- C10: a parsed response item whose label lowercases to `"irrelevant"` is
assigned the label `neutral` rather than `error`, while any other label
outside `{positive, neutral, negative}` is mapped to `error`. -/
theorem C10_irrelevant_maps_to_neutral (lab : Option String) (conf : List (String × ℚ)) :
    (strLower (lab.getD "") = "irrelevant" →
      (parseItem (.dict lab conf)).label = .ofS .neutral) ∧
    (strLower (lab.getD "") ∉ (["positive", "neutral", "negative", "irrelevant"] : List String) →
      (parseItem (.dict lab conf)).label = .err) := by
  rw [parseItem_dict_label]
  constructor
  · intro h
    simp [parseLabel, h]
  · intro h
    simp only [List.mem_cons, List.not_mem_nil, or_false, not_or] at h
    obtain ⟨h1, h2, h3, h4⟩ := h
    simp [parseLabel, h1, h2, h3, h4]

/-- Witness for C10 at the concrete labels `"Irrelevant"` and `"mostly ok"`. -/
theorem C10_irrelevant_maps_to_neutral_witness :
    (parseItem (.dict (some "Irrelevant") [])).label = .ofS .neutral ∧
    (parseItem (.dict (some "mostly ok") [])).label = .err :=
  ⟨(C10_irrelevant_maps_to_neutral (some "Irrelevant") []).1 (by decide),
    (C10_irrelevant_maps_to_neutral (some "mostly ok") []).2 (by decide)⟩

/-- C2, counterexample: the invariant "all confidence values are ≥ 0 and sum
to 1" fails as stated. A response item that is not a dict is parsed to an
`error` result whose confidences are all `0.0` (summing to 0), and a dict
item carrying a negative confidence value keeps a negative confidence after
normalisation (total `-1 + 2 = 1 > 0`, so `positive` stays `-1`). -/
theorem C2_confidence_invariant_counterexample :
    (∃ r ∈ parse_model_response (.parsed [.notDict]) 1,
      r.conf .positive + r.conf .neutral + r.conf .negative = 0) ∧
    (∃ r ∈ parse_model_response
        (.parsed [.dict (some "positive") [("positive", -1), ("neutral", 2)]]) 1,
      r.conf .positive < 0) := by
  constructor
  · refine ⟨parseItem .notDict, ?_, ?_⟩
    · simp [parse_model_response]
    · simp [parseItem]
  · refine ⟨parseItem (.dict (some "positive") [("positive", -1), ("neutral", 2)]), ?_, ?_⟩
    · simp [parse_model_response]
    · have h1 : confLookup [("positive", (-1 : ℚ)), ("neutral", 2)] "positive" = -1 := rfl
      have h2 : confLookup [("positive", (-1 : ℚ)), ("neutral", 2)] "neutral" = 2 := rfl
      have h3 : confLookup [("positive", (-1 : ℚ)), ("neutral", 2)] "negative" = 0 := rfl
      simp only [parseItem, h1, h2, h3]
      norm_num

/-- C2, amended: for response items that are dicts whose supplied confidence
values (for the three valid labels) are nonnegative, every parsed result has
nonnegative confidences summing to exactly 1; when all three supplied
values are zero or absent the parser assigns the equal `1/3` split; padding
and parse-failure entries likewise carry the `1/3` split. Non-dict items,
however, yield all-zero confidences. -/
theorem C2_confidence_invariant_amended (items : List Item) (n : ℕ)
    (h : ∀ it ∈ items, ∃ lab conf, it = Item.dict lab conf ∧
      0 ≤ confLookup conf "positive" ∧ 0 ≤ confLookup conf "neutral" ∧
      0 ≤ confLookup conf "negative") :
    (∀ r ∈ parse_model_response (.parsed items) n,
      (∀ s, 0 ≤ r.conf s) ∧ r.conf .positive + r.conf .neutral + r.conf .negative = 1) ∧
    (∀ lab conf, confLookup conf "positive" = 0 → confLookup conf "neutral" = 0 →
      confLookup conf "negative" = 0 → ∀ s, (parseItem (.dict lab conf)).conf s = 1 / 3) := by
  constructor
  · intro r hr
    simp only [parse_model_response, List.mem_append, List.mem_map,
      List.mem_replicate] at hr
    rcases hr with ⟨it, hit, rfl⟩ | ⟨-, rfl⟩
    · obtain ⟨lab, conf, rfl, hp, hn, hg⟩ := h it (List.mem_of_mem_take hit)
      simp only [parseItem]
      set cp := confLookup conf "positive" with hcp
      set cn := confLookup conf "neutral" with hcn
      set cg := confLookup conf "negative" with hcg
      by_cases htot : 0 < cp + cn + cg
      · simp only [htot, if_true]
        constructor
        · intro s
          cases s <;> positivity
        · field_simp
      · simp only [htot, if_false]
        norm_num
    · constructor
      · intro s
        norm_num [errorResult]
      · norm_num [errorResult]
  · intro lab conf hp hn hg s
    simp [parseItem, hp, hn, hg]

/-- Witness for C2 (amended) at a concrete well-formed response. -/
theorem C2_confidence_invariant_amended_witness :
    0 ≤ (parseItem (Item.dict (some "positive")
        [("positive", 3/4), ("negative", 1/4)])).conf .positive ∧
    0 ≤ (parseItem (Item.dict (some "positive")
        [("positive", 3/4), ("negative", 1/4)])).conf .neutral ∧
    0 ≤ (parseItem (Item.dict (some "positive")
        [("positive", 3/4), ("negative", 1/4)])).conf .negative ∧
    (parseItem (Item.dict (some "positive")
        [("positive", 3/4), ("negative", 1/4)])).conf .positive +
      (parseItem (Item.dict (some "positive")
        [("positive", 3/4), ("negative", 1/4)])).conf .neutral +
      (parseItem (Item.dict (some "positive")
        [("positive", 3/4), ("negative", 1/4)])).conf .negative = 1 := by
  have h := (C2_confidence_invariant_amended
      [Item.dict (some "positive") [("positive", 3/4), ("negative", 1/4)]] 1
      (by
        intro it hit
        simp only [List.mem_singleton] at hit
        refine ⟨some "positive", [("positive", 3/4), ("negative", 1/4)], hit, ?_, ?_, ?_⟩ <;>
          norm_num [show confLookup [("positive", (3/4 : ℚ)), ("negative", 1/4)] "positive" = 3/4 from rfl,
            show confLookup [("positive", (3/4 : ℚ)), ("negative", 1/4)] "neutral" = 0 from rfl,
            show confLookup [("positive", (3/4 : ℚ)), ("negative", 1/4)] "negative" = 1/4 from rfl])).1
    (parseItem (Item.dict (some "positive") [("positive", 3/4), ("negative", 1/4)]))
    (by simp [parse_model_response])
  exact ⟨h.1 .positive, h.1 .neutral, h.1 .negative, h.2⟩

/-- C7, counterexample: an unparsable response is NOT retried. With an
oracle whose first attempt returns an undecodable response and whose second
attempt would parse to a non-error result, `call_model_batch` returns the
all-`error` list after a single attempt (`1 < MAX_RETRIES = 3`): the
exception raised by `json.loads` is swallowed inside `parse_model_response`,
so the retry loop never sees it. -/
theorem C7_retry_counterexample :
    call_model_batch
        (fun k => if k = 0 then some .unparsable
          else some (.parsed [.dict (some "positive") [("positive", 1)]])) 1 =
      ([errorResult], 1) ∧
    1 < MAX_RETRIES ∧
    (parse_model_response (.parsed [.dict (some "positive") [("positive", (1 : ℚ))]]) 1).map
        ClassificationResult.label = [.ofS .positive] := by
  refine ⟨?_, by norm_num [MAX_RETRIES], ?_⟩
  · simp [call_model_batch, MAX_RETRIES, call_go, parse_model_response]
  · have h1 : confLookup [("positive", (1 : ℚ))] "positive" = 1 := rfl
    have h2 : confLookup [("positive", (1 : ℚ))] "neutral" = 0 := rfl
    have h3 : confLookup [("positive", (1 : ℚ))] "negative" = 0 := rfl
    simp only [parse_model_response, List.take, List.map, parseItem, h1, h2, h3]
    norm_num
    rfl

/-- C7, amended: only exceptions from the remote call are retried. If every
attempt below `MAX_RETRIES` raises, the client makes exactly `MAX_RETRIES`
attempts and then returns a list of all `error` results of the batch's
length instead of propagating the exception; if the first attempt returns a
response (parsable or not), its parse — always of the batch's length — is
returned after that single attempt with no retry. -/
theorem C7_retry_amended (oracle : ℕ → Option Resp) (num : ℕ) :
    ((∀ k, k < MAX_RETRIES → oracle k = none) →
      call_model_batch oracle num = (List.replicate num errorResult, MAX_RETRIES)) ∧
    (∀ r, oracle 0 = some r →
      call_model_batch oracle num = (parse_model_response r num, 1)) ∧
    (call_model_batch oracle num).1.length = num := by
  refine ⟨?_, ?_, ?_⟩
  · intro h
    have h0 := h 0 (by norm_num [MAX_RETRIES])
    have h1 := h 1 (by norm_num [MAX_RETRIES])
    have h2 := h 2 (by norm_num [MAX_RETRIES])
    simp [call_model_batch, MAX_RETRIES, call_go, h0, h1, h2]
  · intro r h0
    simp [call_model_batch, MAX_RETRIES, call_go, h0]
  · show (call_go oracle num 0 MAX_RETRIES).1.length = num
    simp only [MAX_RETRIES, call_go]
    cases h0 : oracle 0 with
    | some r => simp [parse_model_response_length]
    | none =>
      simp only [MAX_RETRIES]
      norm_num [call_go]
      cases h1 : oracle 1 with
      | some r => simp [parse_model_response_length]
      | none =>
        norm_num [call_go]
        cases h2 : oracle 2 with
        | some r => simp [parse_model_response_length]
        | none => simp

/-- Witness for C7 (amended): an oracle that always raises yields the
all-`error` pair after `MAX_RETRIES` attempts. -/
theorem C7_retry_amended_witness :
    call_model_batch (fun _ => none) 2 = (List.replicate 2 errorResult, MAX_RETRIES) :=
  (C7_retry_amended (fun _ => none) 2).1 (fun _ _ => rfl)

/- Helper lemmas about the splitters. -/

lemma sum_indicator_range (r n : ℕ) :
    (((List.range n).map fun i => if i < r then 1 else 0).sum) = min r n := by
  induction n with
  | zero => simp
  | succ n ih =>
    rw [List.range_succ, List.map_append, List.sum_append]
    simp only [List.map_cons, List.map_nil, List.sum_cons, List.sum_nil, ih]
    by_cases h : n < r
    · simp only [h, if_true]
      omega
    · simp only [h, if_false]
      omega

lemma split_sizes_length (total n : ℕ) : (split_sizes total n).length = n := by
  simp [split_sizes]

lemma sum_map_add_range (f g : ℕ → ℕ) (n : ℕ) :
    (((List.range n).map fun i => f i + g i).sum) =
      ((List.range n).map f).sum + ((List.range n).map g).sum := by
  induction n with
  | zero => simp
  | succ m ih =>
    rw [List.range_succ]
    simp only [List.map_append, List.sum_append, List.map_cons, List.map_nil,
      List.sum_cons, List.sum_nil, ih]
    omega

lemma split_sizes_sum (total n : ℕ) (h : 1 ≤ n) : (split_sizes total n).sum = total := by
  unfold split_sizes
  rw [sum_map_add_range (fun _ => total / n) (fun i => if i < total % n then 1 else 0) n,
    sum_indicator_range]
  have hconst : (((List.range n).map fun _ => total / n).sum) = n * (total / n) := by
    rw [List.map_const']
    simp [List.sum_replicate, Nat.smul_one_eq_cast]
  have hmod : total % n < n := Nat.mod_lt _ (by omega)
  rw [hconst]
  have := Nat.div_add_mod total n
  omega

lemma split_sizes_mem (total n : ℕ) :
    ∀ sz ∈ split_sizes total n, sz = total / n ∨ sz = total / n + 1 := by
  intro sz hsz
  simp only [split_sizes, List.mem_map, List.mem_range] at hsz
  obtain ⟨i, -, rfl⟩ := hsz
  by_cases h : i < total % n <;> simp [h]

lemma split_by_sizes_length {α : Type} (ss : List ℕ) (l : List α) :
    (split_by_sizes ss l).length = ss.length := by
  induction ss generalizing l with
  | nil => simp [split_by_sizes]
  | cons s ss ih => simp [split_by_sizes, ih]

lemma split_by_sizes_flatten {α : Type} (ss : List ℕ) (l : List α) :
    (split_by_sizes ss l).flatten = l.take ss.sum := by
  induction ss generalizing l with
  | nil => simp [split_by_sizes]
  | cons s ss ih =>
    simp only [split_by_sizes, List.flatten_cons, ih, List.sum_cons]
    rw [← List.take_add]

lemma split_by_sizes_lengths {α : Type} (ss : List ℕ) (l : List α) (h : ss.sum ≤ l.length) :
    (split_by_sizes ss l).map List.length = ss := by
  induction ss generalizing l with
  | nil => simp [split_by_sizes]
  | cons s ss ih =>
    simp only [List.sum_cons] at h
    simp only [split_by_sizes, List.map_cons, List.length_take]
    rw [ih _ (by simp; omega)]
    congr 1
    omega

lemma split_by_sizes_break_eq {α : Type} (ss : List ℕ) (l : List α)
    (h : ∀ s ∈ ss, s ≠ 0) :
    split_by_sizes_break ss l = split_by_sizes ss l := by
  induction ss generalizing l with
  | nil => simp [split_by_sizes, split_by_sizes_break]
  | cons s ss ih =>
    have hs : s ≠ 0 := h s (by simp)
    simp only [split_by_sizes, split_by_sizes_break, hs, if_false]
    rw [ih _ (fun t ht => h t (by simp [ht]))]

/-- C8: splitting `T` rows into `N` shards (`1 ≤ N ≤ T`) yields `N` shards
whose sizes are `⌊T/N⌋` with the first `T mod N` shards one larger (so sizes
differ by at most 1 and sum to `T`), and the partition is prefix-contiguous:
concatenating the shards in order reproduces the input exactly. The
orchestrator's `split_csv` computes the same partition. -/
theorem C8_split_shapes {α : Type} (l : List α) (n : ℕ) (h1 : 1 ≤ n) (h2 : n ≤ l.length) :
    (split_data l n).length = n ∧
    (split_data l n).map List.length = split_sizes l.length n ∧
    (split_sizes l.length n).sum = l.length ∧
    (∀ sz ∈ split_sizes l.length n, sz = l.length / n ∨ sz = l.length / n + 1) ∧
    (split_data l n).flatten = l ∧
    split_csv l n = split_data l n := by
  have hsum := split_sizes_sum l.length n h1
  refine ⟨?_, ?_, hsum, split_sizes_mem _ _, ?_, ?_⟩
  · rw [split_data, split_by_sizes_length, split_sizes_length]
  · rw [split_data, split_by_sizes_lengths _ _ (by rw [hsum])]
  · rw [split_data, split_by_sizes_flatten, hsum, List.take_length]
  · rw [split_csv, split_data]
    have hclamp : ¬ l.length < n := by omega
    simp only [hclamp, if_false]
    apply split_by_sizes_break_eq
    intro s hs
    rcases split_sizes_mem l.length n s hs with h | h <;>
      · have : 1 ≤ l.length / n := Nat.one_le_div_iff (by omega) |>.mpr h2
        omega

/-- Witness for C8 on a 7-row dataset split into 3 shards. -/
theorem C8_split_shapes_witness :
    1 ≤ 3 ∧ 3 ≤ (List.range 7).length ∧ (split_data (List.range 7) 3).flatten = List.range 7 :=
  ⟨by norm_num, by simp,
    (C8_split_shapes (List.range 7) 3 (by norm_num) (by simp)).2.2.2.2.1⟩

/- Helper lemmas about deduplication. -/

lemma drop_duplicates_countId (rows : List LabeledRow) (seen : List String) (i : String) :
    countId i (drop_duplicates rows seen) =
      if i ∈ seen then 0 else min (countId i rows) 1 := by
  induction rows generalizing seen with
  | nil => simp [drop_duplicates, countId]
  | cons r rs ih =>
    simp only [drop_duplicates]
    by_cases hseen : r.1 ∈ seen
    · rw [if_pos hseen, ih]
      by_cases hi : i ∈ seen
      · rw [if_pos hi, if_pos hi]
      · have hne : ¬ (r.1 = i) := fun h => hi (h ▸ hseen)
        rw [if_neg hi, if_neg hi]
        simp [countId, List.countP_cons, hne]
    · rw [if_neg hseen]
      have hcons : countId i (r :: drop_duplicates rs (r.1 :: seen)) =
          countId i (drop_duplicates rs (r.1 :: seen)) + (if r.1 = i then 1 else 0) := by
        simp only [countId, List.countP_cons, decide_eq_true_eq]
      rw [hcons, ih]
      by_cases hr : r.1 = i
      · have hm : i ∈ r.1 :: seen := by simp [hr]
        rw [if_pos hm, if_pos hr]
        by_cases hi : i ∈ seen
        · exact absurd (hr ▸ hi) hseen
        · rw [if_neg hi]
          simp only [countId, List.countP_cons, decide_eq_true_eq, if_pos hr]
          omega
      · have hmm : (i ∈ r.1 :: seen) ↔ i ∈ seen := by
          constructor
          · intro h
            rcases List.mem_cons.mp h with h | h
            · exact absurd h.symm hr
            · exact h
          · exact fun h => List.mem_cons_of_mem _ h
        rw [if_neg hr]
        by_cases hi : i ∈ seen
        · rw [if_pos (hmm.mpr hi), if_pos hi]
        · rw [if_neg (fun h => hi (hmm.mp h)), if_neg hi]
          simp only [countId, List.countP_cons, decide_eq_true_eq, if_neg hr]
          omega

lemma drop_duplicates_findRow (rows : List LabeledRow) (seen : List String) (i : String)
    (hi : i ∉ seen) :
    findRow i (drop_duplicates rows seen) = findRow i rows := by
  induction rows generalizing seen with
  | nil => simp [drop_duplicates]
  | cons r rs ih =>
    simp only [drop_duplicates]
    by_cases hseen : r.1 ∈ seen
    · have hne : decide (r.1 = i) = false := by
        simp only [decide_eq_false_iff_not]
        exact fun h => hi (h ▸ hseen)
      rw [if_pos hseen, ih seen hi]
      simp only [findRow, List.find?_cons, hne]
    · rw [if_neg hseen]
      by_cases hr : r.1 = i
      · have hp : decide (r.1 = i) = true := by simp [hr]
        simp only [findRow, List.find?_cons, hp]
      · have hne : decide (r.1 = i) = false := by simp [hr]
        have hmem : i ∉ r.1 :: seen := by
          intro h
          rcases List.mem_cons.mp h with h | h
          · exact hr h.symm
          · exact hi h
        simp only [findRow, List.find?_cons, hne]
        exact ih (r.1 :: seen) hmem

/-- C1, counterexample: on duplicate ids the merge keeps the FIRST writer's
`(label, score)` pair, not the last one. With two shard files both labeling
id `"x"`, the merged dataset carries the pair from the first file
(`("positive", 1)`) although the last writer wrote `("negative", 1/2)`. -/
theorem C1_merge_last_writer_counterexample :
    merge_labeled_comments ["x"] [[("x", "positive", 1)], [("x", "negative", 1/2)]] =
      [("x", some ("positive", 1))] ∧
    (("positive", 1) : String × ℚ) ≠ ("negative", 1/2) := by
  constructor
  · rfl
  · intro h
    exact absurd (congrArg Prod.fst h) (by decide)

/-- C1, amended: the merge keeps exactly one row per id — for every id the
deduplicated mapping contains `min(count, 1)` rows with that id — and the
kept `(label, score)` pair is the one from the FIRST writer in sorted file
order (earlier files win on duplicate ids); when the main table's ids are
unique the final merged dataset has no duplicate ids. -/
theorem C1_merge_first_writer_wins (files : List (List LabeledRow)) (mainIds : List String) :
    (∀ i, countId i (merged_labeled files) = min (countId i files.flatten) 1) ∧
    (∀ i, findRow i (merged_labeled files) = findRow i files.flatten) ∧
    (mainIds.Nodup → ((merge_labeled_comments mainIds files).map Prod.fst).Nodup) := by
  refine ⟨?_, ?_, ?_⟩
  · intro i
    rw [merged_labeled, drop_duplicates_countId, if_neg (List.not_mem_nil i)]
  · intro i
    exact drop_duplicates_findRow _ _ _ (List.not_mem_nil i)
  · intro hnd
    have hsub : ((merge_labeled_comments mainIds files).map Prod.fst).Sublist
        ((mainIds.map fun i =>
          (i, (findRow i (merged_labeled files)).map fun r => r.2)).map Prod.fst) :=
      (List.filter_sublist _).map _
    have heq : ((mainIds.map fun i =>
        (i, (findRow i (merged_labeled files)).map fun r => r.2)).map Prod.fst) = mainIds := by
      rw [List.map_map]
      exact List.map_id _
    rw [heq] at hsub
    exact hnd.sublist hsub

/-- Witness for C1 (amended) on two overlapping shard files. -/
theorem C1_merge_first_writer_wins_witness :
    countId "x" (merged_labeled [[("x", "positive", 1)], [("x", "negative", 1/2)]]) =
      min (countId "x"
        ([[("x", "positive", 1)], [("x", "negative", 1/2)]] : List (List LabeledRow)).flatten) 1 ∧
    (["x", "y"] : List String).Nodup ∧
    ((merge_labeled_comments ["x", "y"] [[("x", "positive", 1)], [("x", "negative", 1/2)]]).map
      Prod.fst).Nodup :=
  ⟨(C1_merge_first_writer_wins [[("x", "positive", 1)], [("x", "negative", 1/2)]] ["x"]).1 "x",
    by decide,
    (C1_merge_first_writer_wins [[("x", "positive", 1)], [("x", "negative", 1/2)]]
      ["x", "y"]).2.2 (by decide)⟩

/- Helper lemmas about the batch loop. -/

lemma run_loop_eq_range' (total : ℕ) (n : ℕ) :
    ∀ s, (total - s + BATCH_SIZE - 1) / BATCH_SIZE ≤ n →
      run_loop total s n = List.range' s (total - s) := by
  induction n with
  | zero =>
    intro s hs
    have htot : total ≤ s := by
      simp only [BATCH_SIZE] at hs
      omega
    rw [show total - s = 0 from by omega]
    rfl
  | succ n ih =>
    intro s hs
    by_cases hlt : s < total
    · rw [run_loop, if_pos hlt]
      have ihs := ih (s + BATCH_SIZE) (by simp only [BATCH_SIZE] at *; omega)
      rw [ihs]
      by_cases hfull : s + BATCH_SIZE ≤ total
      · rw [show min (s + BATCH_SIZE) total - s = BATCH_SIZE from by omega]
        have happ := List.range'_append s BATCH_SIZE (total - (s + BATCH_SIZE)) 1
        simp only [one_mul] at happ
        rw [happ]
        congr 1
        omega
      · rw [show min (s + BATCH_SIZE) total - s = total - s from by omega,
          show total - (s + BATCH_SIZE) = 0 from by omega]
        simp
    · rw [run_loop, if_neg hlt, show total - s = 0 from by omega]
      rfl

lemma processed_indices_eq_range' (total s : ℕ) :
    processed_indices total s = List.range' s (total - s) :=
  run_loop_eq_range' total _ s le_rfl

/-- C4: if a shard run from `start` is killed after the successful
checkpoint write following batch `k`, the restarted run — resuming at the
loaded index — processes exactly the indices strictly above the
checkpointed `last_processed_idx` value `c`: it never reprocesses a record
counted as processed (zero records, hence at most one batch), and never
skips a pending record. -/
theorem C4_resume_no_skip_no_redo (total start k : ℕ)
    (hk : start + k * BATCH_SIZE < total) :
    (∀ j, j ≤ checkpoint_after_batch total start k →
      j ∉ processed_indices total
        (load_checkpoint (some (some (checkpoint_after_batch total start k))))) ∧
    (∀ j, checkpoint_after_batch total start k < j → j < total →
      j ∈ processed_indices total
        (load_checkpoint (some (some (checkpoint_after_batch total start k))))) ∧
    processed_indices total
        (load_checkpoint (some (some (checkpoint_after_batch total start k)))) =
      List.range' (checkpoint_after_batch total start k + 1)
        (total - (checkpoint_after_batch total start k + 1)) := by
  set c := checkpoint_after_batch total start k with hc
  have hclt : c < total := by
    rw [hc, checkpoint_after_batch]
    simp only [BATCH_SIZE] at *
    omega
  have hload : load_checkpoint (some (some c)) = c + 1 := rfl
  have hrange := processed_indices_eq_range' total (c + 1)
  refine ⟨?_, ?_, by rw [hload, hrange]⟩
  · intro j hj hmem
    rw [hload, hrange, List.mem_range'_1] at hmem
    omega
  · intro j hj1 hj2
    rw [hload, hrange, List.mem_range'_1]
    omega

/-- Witness for C4: a 12-record shard checkpointed after its first batch
resumes at index 5 and processes exactly indices 5 through 11. -/
theorem C4_resume_no_skip_no_redo_witness :
    0 + 0 * BATCH_SIZE < 12 ∧
    processed_indices 12 (load_checkpoint (some (some (checkpoint_after_batch 12 0 0)))) =
      List.range' (checkpoint_after_batch 12 0 0 + 1) (12 - (checkpoint_after_batch 12 0 0 + 1)) :=
  ⟨by norm_num [BATCH_SIZE],
    (C4_resume_no_skip_no_redo 12 0 0 (by norm_num [BATCH_SIZE])).2.2⟩

/-- C3, counterexample: `save_checkpoint` is not atomic. Its trace opens the
checkpoint file for writing in place, so the crash point right after the
truncating `open` (prefix of length 1) leaves the checkpoint path holding a
truncated, unparsable file — neither the old content nor a complete
checkpoint. No write-then-rename is involved. -/
theorem C3_checkpoint_not_atomic_counterexample :
    ¬ crashSafe (save_checkpoint_ops "checkpoints/checkpoint_part_1.json" 9)
      "checkpoints/checkpoint_part_1.json" (fun _ => none) := by
  intro h
  have h1 := h 1
  have hstate : applyOps ((save_checkpoint_ops "checkpoints/checkpoint_part_1.json" 9).take 1)
      (fun _ => none) "checkpoints/checkpoint_part_1.json" = some .truncated := by
    simp [save_checkpoint_ops, applyOps, applyOp]
  rw [hstate] at h1
  rcases h1 with h1 | ⟨n, hn⟩
  · exact Option.noConfusion h1
  · exact FileData.noConfusion (Option.some.inj hn)

/-- C3, amended: `save_checkpoint` writes the checkpoint file in place
(truncate, then write), not atomically: the completed trace leaves a valid
checkpoint holding `last_processed_idx`, but there is a crash point at
which the checkpoint file is truncated and unparsable; `load_checkpoint`
maps such an unreadable file to index 0 (restart from the beginning). -/
theorem C3_checkpoint_save_amended (f : String) (last : ℕ)
    (fs0 : String → Option FileData) (hne : results_file f ≠ f) :
    applyOps (save_checkpoint_ops f last) fs0 f = some (.ckptData last) ∧
    (∃ k, applyOps ((save_checkpoint_ops f last).take k) fs0 f = some .truncated) ∧
    load_checkpoint (some none) = 0 := by
  refine ⟨?_, ⟨1, ?_⟩, rfl⟩
  · simp [save_checkpoint_ops, applyOps, applyOp, Ne.symm hne]
  · simp [save_checkpoint_ops, applyOps, applyOp]

/-- Witness for C3 (amended) at the shard-1 checkpoint path. -/
theorem C3_checkpoint_save_amended_witness :
    results_file "checkpoints/checkpoint_part_1.json" ≠ "checkpoints/checkpoint_part_1.json" ∧
    applyOps (save_checkpoint_ops "checkpoints/checkpoint_part_1.json" 9) (fun _ => none)
      "checkpoints/checkpoint_part_1.json" = some (.ckptData 9) :=
  ⟨by decide,
    (C3_checkpoint_save_amended "checkpoints/checkpoint_part_1.json" 9 (fun _ => none)
      (by decide)).1⟩

/-- The largest of the three normalised scores (the spec's "top score"). -/
def topScore (f p : ClassificationResult) : ℚ :=
  max (scoreNorm f p .positive) (max (scoreNorm f p .neutral) (scoreNorm f p .negative))

/-- The second largest of the three normalised scores (the median of the
three values, i.e. the spec's "second score"). -/
def secondScore (f p : ClassificationResult) : ℚ :=
  max (min (scoreNorm f p .positive) (scoreNorm f p .neutral))
    (min (max (scoreNorm f p .positive) (scoreNorm f p .neutral)) (scoreNorm f p .negative))

lemma sort_scores (f p : ClassificationResult) :
    ∃ a b c : SLab × ℚ,
      ([(SLab.positive, scoreNorm f p .positive), (SLab.neutral, scoreNorm f p .neutral),
          (SLab.negative, scoreNorm f p .negative)] : List (SLab × ℚ)).insertionSort
          (fun x y => x.2 ≥ y.2) = [a, b, c] ∧
      a.2 = topScore f p ∧ b.2 = secondScore f p ∧ a.2 = scoreNorm f p a.1 := by
  set sp := scoreNorm f p .positive with hsp
  set sn := scoreNorm f p .neutral with hsn
  set sg := scoreNorm f p .negative with hsg
  have hstep : ([(SLab.positive, sp), (SLab.neutral, sn), (SLab.negative, sg)] :
      List (SLab × ℚ)).insertionSort (fun x y => x.2 ≥ y.2) =
      List.orderedInsert (fun x y => x.2 ≥ y.2) (SLab.positive, sp)
        (List.orderedInsert (fun x y => x.2 ≥ y.2) (SLab.neutral, sn)
          [(SLab.negative, sg)]) := by
    simp [List.insertionSort, List.orderedInsert]
  have e1 : List.orderedInsert (fun x y => (x : SLab × ℚ).2 ≥ y.2) (SLab.neutral, sn)
      [(SLab.negative, sg)] =
      if sn ≥ sg then [(SLab.neutral, sn), (SLab.negative, sg)]
      else [(SLab.negative, sg), (SLab.neutral, sn)] := by
    simp only [List.orderedInsert]
  have e2 : ∀ (u1 : SLab) (u2 : ℚ) (v1 : SLab) (v2 : ℚ),
      List.orderedInsert (fun x y => (x : SLab × ℚ).2 ≥ y.2) (SLab.positive, sp)
        [(u1, u2), (v1, v2)] =
        if sp ≥ u2 then [(SLab.positive, sp), (u1, u2), (v1, v2)]
        else if sp ≥ v2 then [(u1, u2), (SLab.positive, sp), (v1, v2)]
        else [(u1, u2), (v1, v2), (SLab.positive, sp)] := by
    intro u1 u2 v1 v2
    simp only [List.orderedInsert]
    split_ifs <;> rfl
  rw [hstep, e1]
  by_cases h1 : sn ≥ sg
  · rw [if_pos h1, e2]
    by_cases h2 : sp ≥ sn
    · rw [if_pos h2]
      refine ⟨_, _, _, rfl, ?_, ?_, hsp⟩ <;>
        · simp only [topScore, secondScore, ← hsp, ← hsn, ← hsg, max_def, min_def]
          split_ifs <;> linarith
    · rw [if_neg h2]
      by_cases h3 : sp ≥ sg
      · rw [if_pos h3]
        refine ⟨_, _, _, rfl, ?_, ?_, hsn⟩ <;>
          · simp only [topScore, secondScore, ← hsp, ← hsn, ← hsg, max_def, min_def]
            split_ifs <;> linarith
      · rw [if_neg h3]
        refine ⟨_, _, _, rfl, ?_, ?_, hsn⟩ <;>
          · simp only [topScore, secondScore, ← hsp, ← hsn, ← hsg, max_def, min_def]
            split_ifs <;> linarith
  · rw [if_neg h1, e2]
    by_cases h2 : sp ≥ sg
    · rw [if_pos h2]
      refine ⟨_, _, _, rfl, ?_, ?_, hsp⟩ <;>
        · simp only [topScore, secondScore, ← hsp, ← hsn, ← hsg, max_def, min_def]
          split_ifs <;> linarith
    · rw [if_neg h2]
      by_cases h3 : sp ≥ sn
      · rw [if_pos h3]
        refine ⟨_, _, _, rfl, ?_, ?_, hsg⟩ <;>
          · simp only [topScore, secondScore, ← hsp, ← hsn, ← hsg, max_def, min_def]
            split_ifs <;> linarith
      · rw [if_neg h3]
        refine ⟨_, _, _, rfl, ?_, ?_, hsg⟩ <;>
          · simp only [topScore, secondScore, ← hsp, ← hsn, ← hsg, max_def, min_def]
            split_ifs <;> linarith

lemma soft_vote_one_eq (f p : ClassificationResult) (a b c : SLab × ℚ)
    (hs : ([(SLab.positive, scoreNorm f p .positive), (SLab.neutral, scoreNorm f p .neutral),
        (SLab.negative, scoreNorm f p .negative)] : List (SLab × ℚ)).insertionSort
        (fun x y => x.2 ≥ y.2) = [a, b, c]) :
    soft_vote_one f p =
      if MARGIN_THRESHOLD ≤ a.2 - b.2 then
        { final_label := some (.ofS a.1), strategy := .soft_voting, margin := some (a.2 - b.2) }
      else
        { final_label := none, strategy := .human_review, margin := some (a.2 - b.2) } := by
  unfold soft_vote_one
  rw [hs]

/-- C5: for every record reaching weighted soft voting, the per-label score
is the weight-scaled sum of confidences over exactly the non-`error` tiers
normalised by the sum of the weights actually used; the margin is the top
score minus the second score; a margin at or above `MARGIN_THRESHOLD` gives
`{final_label: top label, strategy: soft_voting, margin}`, a smaller margin
gives `{final_label: null, strategy: human_review, margin}`; and a record
whose two tiers both errored is routed to human review. -/
theorem C5_weighted_soft_voting_spec (f p : ClassificationResult) :
    (0 < totalWeight f p → ∀ l, scoreNorm f p l =
      ((if f.label ≠ .err then f.conf l * WEIGHT_FAST else 0) +
        (if p.label ≠ .err then p.conf l * WEIGHT_PRO else 0)) / totalWeight f p) ∧
    (soft_vote_one f p).margin = some (topScore f p - secondScore f p) ∧
    (MARGIN_THRESHOLD ≤ topScore f p - secondScore f p →
      ∃ t, soft_vote_one f p =
        { final_label := some (.ofS t), strategy := .soft_voting,
          margin := some (topScore f p - secondScore f p) } ∧
        scoreNorm f p t = topScore f p) ∧
    (topScore f p - secondScore f p < MARGIN_THRESHOLD →
      soft_vote_one f p =
        { final_label := none, strategy := .human_review,
          margin := some (topScore f p - secondScore f p) }) ∧
    (f.label = .err → p.label = .err →
      soft_vote_one f p =
        { final_label := none, strategy := .human_review, margin := some 0 }) := by
  obtain ⟨a, b, c, hs, ha, hb, hval⟩ := sort_scores f p
  have heq := soft_vote_one_eq f p a b c hs
  refine ⟨?_, ?_, ?_, ?_, ?_⟩
  · intro h l
    rw [scoreNorm, if_pos h, scoreRaw]
  · rw [heq]
    split_ifs <;> simp [ha, hb]
  · intro hm
    refine ⟨a.1, ?_, by rw [← ha, hval]⟩
    rw [heq, ha, hb, if_pos hm]
  · intro hm
    rw [heq, ha, hb, if_neg (not_le.mpr hm)]
  · intro hf hp
    have hz : ∀ l, scoreNorm f p l = 0 := by
      intro l
      simp [scoreNorm, scoreRaw, totalWeight, hf, hp]
    have hm : a.2 - b.2 = 0 := by
      rw [ha, hb]
      simp [topScore, secondScore, hz]
    rw [heq, hm, if_neg (by norm_num [MARGIN_THRESHOLD])]

/-- A concrete Fast-tier result used to witness C5. -/
def fastSample : ClassificationResult :=
  { label := .ofS .positive
    conf := fun s => match s with
      | .positive => 1 / 2
      | .neutral => 3 / 10
      | .negative => 1 / 5 }

/-- A concrete Pro-tier result used to witness C5. -/
def proSample : ClassificationResult :=
  { label := .ofS .negative
    conf := fun s => match s with
      | .positive => 0
      | .neutral => 2 / 5
      | .negative => 3 / 5 }

/-- Witness for C5: on the sample pair the margin `7/15 - 11/30 = 1/10` is
below `MARGIN_THRESHOLD`, so the record is routed to human review. -/
theorem C5_weighted_soft_voting_spec_witness :
    soft_vote_one fastSample proSample =
      { final_label := none, strategy := .human_review, margin := some (1 / 10) } := by
  have e1 : ((Lab.ofS SLab.positive : Lab) = Lab.err) = False := by simp
  have e2 : ((Lab.ofS SLab.negative : Lab) = Lab.err) = False := by simp
  have hts : topScore fastSample proSample = 7 / 15 := by
    norm_num [topScore, scoreNorm, scoreRaw, totalWeight, fastSample, proSample,
      WEIGHT_FAST, WEIGHT_PRO, e1, e2, max_def]
  have hss : secondScore fastSample proSample = 11 / 30 := by
    norm_num [secondScore, scoreNorm, scoreRaw, totalWeight, fastSample, proSample,
      WEIGHT_FAST, WEIGHT_PRO, e1, e2, max_def, min_def]
  have h := (C5_weighted_soft_voting_spec fastSample proSample).2.2.2.1
    (by rw [hts, hss]; norm_num [MARGIN_THRESHOLD])
  rw [h, hts, hss]
  norm_num

lemma mem_need_pro_indices (fast : List ClassificationResult) (draws : ℕ → ℚ) (i : ℕ)
    (hi : i < fast.length) :
    i ∈ need_pro_indices fast draws ↔
      ¬(CONF_FAST_ACCEPT ≤ labelConf (fast.getD i errorResult) ∧ ¬(draws i < AUDIT_RATE)) := by
  simp only [need_pro_indices, List.mem_filter, List.mem_range, decide_eq_true_eq]
  constructor
  · rintro ⟨-, h⟩
    exact h
  · intro h
    exact ⟨hi, h⟩

lemma process_batch_getD (fast : List ClassificationResult) (draws : ℕ → ℚ)
    (pro : ℕ → ClassificationResult) (i : ℕ) (hi : i < fast.length)
    (d0 : ConsensusDecision) :
    (process_batch fast draws pro).getD i d0 =
      recordDecision (fast.getD i errorResult) (draws i) (pro i) := by
  rw [process_batch, List.getD_eq_getElem?_getD, List.getElem?_map, List.getElem?_range hi]
  rfl

/-- C6: a record's decision is `{final_label: fast.label, strategy:
fast_accept, margin: null}` with no Pro-tier call for it if and only if the
Fast result's labelled confidence is at least `CONF_FAST_ACCEPT` and the
record's uniform draw does not select it for audit (a draw below
`AUDIT_RATE` forces the Pro path regardless of confidence). -/
theorem C6_fast_accept_iff (fast : List ClassificationResult) (draws : ℕ → ℚ)
    (pro : ℕ → ClassificationResult) (i : ℕ) (hi : i < fast.length) :
    ((process_batch fast draws pro).getD i { final_label := none, strategy := .human_review, margin := none } =
        { final_label := some (fast.getD i errorResult).label, strategy := .fast_accept, margin := none } ∧
      i ∉ need_pro_indices fast draws) ↔
    (CONF_FAST_ACCEPT ≤ labelConf (fast.getD i errorResult) ∧ ¬(draws i < AUDIT_RATE)) := by
  rw [process_batch_getD fast draws pro i hi, mem_need_pro_indices fast draws i hi]
  constructor
  · rintro ⟨-, h⟩
    exact not_not.mp h
  · intro h
    exact ⟨by rw [recordDecision, if_pos h], not_not.mpr h⟩

/-- Witness for C6: a single-record batch with labelled confidence `0.99 ≥
CONF_FAST_ACCEPT` and a non-audit draw is fast-accepted with no Pro call. -/
theorem C6_fast_accept_iff_witness :
    (process_batch [{ label := .ofS .positive, conf := fun _ => 99 / 100 }]
        (fun _ => 1 / 2) (fun _ => errorResult)).getD 0
        { final_label := none, strategy := .human_review, margin := none } =
      { final_label := some (([{ label := .ofS .positive, conf := fun _ => 99 / 100 }] :
          List ClassificationResult).getD 0 errorResult).label,
        strategy := .fast_accept, margin := none } ∧
    0 ∉ need_pro_indices [{ label := .ofS .positive, conf := fun _ => 99 / 100 }] (fun _ => 1 / 2) :=
  (C6_fast_accept_iff [{ label := .ofS .positive, conf := fun _ => 99 / 100 }]
      (fun _ => 1 / 2) (fun _ => errorResult) 0 (by simp)).mpr
    ⟨by norm_num [labelConf, CONF_FAST_ACCEPT], by norm_num [AUDIT_RATE]⟩

lemma soft_vote_one_shapes (f p : ClassificationResult) :
    (∃ t m, soft_vote_one f p =
      { final_label := some (.ofS t), strategy := .soft_voting, margin := some m }) ∨
    (∃ m, soft_vote_one f p =
      { final_label := none, strategy := .human_review, margin := some m }) := by
  obtain ⟨a, b, c, hs, -, -, -⟩ := sort_scores f p
  rw [soft_vote_one_eq f p a b c hs]
  by_cases h : MARGIN_THRESHOLD ≤ a.2 - b.2
  · exact .inl ⟨a.1, a.2 - b.2, by rw [if_pos h]⟩
  · exact .inr ⟨a.2 - b.2, by rw [if_neg h]⟩

/-- C9: for every record of a batch, the decision's strategy is
`human_review` if and only if its `final_label` is null, and any
`fast_accept`, `agreement` or `soft_voting` decision carries a label among
the three valid labels (never `error`). -/
theorem C9_human_review_iff_null (fast : List ClassificationResult) (draws : ℕ → ℚ)
    (pro : ℕ → ClassificationResult) (i : ℕ) (hi : i < fast.length) :
    (((process_batch fast draws pro).getD i
        { final_label := none, strategy := .human_review, margin := none }).strategy =
          .human_review ↔
      ((process_batch fast draws pro).getD i
        { final_label := none, strategy := .human_review, margin := none }).final_label =
          none) ∧
    (((process_batch fast draws pro).getD i
        { final_label := none, strategy := .human_review, margin := none }).strategy ≠
          .human_review →
      ∃ s, ((process_batch fast draws pro).getD i
        { final_label := none, strategy := .human_review, margin := none }).final_label =
          some (.ofS s)) := by
  rw [process_batch_getD fast draws pro i hi]
  set f := fast.getD i errorResult with hf
  rw [recordDecision]
  by_cases h1 : CONF_FAST_ACCEPT ≤ labelConf f ∧ ¬(draws i < AUDIT_RATE)
  · rw [if_pos h1]
    obtain ⟨s, hs⟩ : ∃ s, f.label = .ofS s := by
      cases hl : f.label with
      | ofS s => exact ⟨s, rfl⟩
      | err =>
        exfalso
        have hcf := h1.1
        rw [labelConf, hl] at hcf
        norm_num [CONF_FAST_ACCEPT] at hcf
    exact ⟨by simp [hs], fun _ => ⟨s, by simp [hs]⟩⟩
  · rw [if_neg h1]
    by_cases h2 : f.label = (pro i).label ∧ f.label ≠ .err
    · rw [if_pos h2]
      obtain ⟨s, hs⟩ : ∃ s, f.label = .ofS s := by
        cases hl : f.label with
        | ofS s => exact ⟨s, rfl⟩
        | err => exact absurd hl h2.2
      exact ⟨by simp [hs], fun _ => ⟨s, by simp [hs]⟩⟩
    · rw [if_neg h2]
      rcases soft_vote_one_shapes f (pro i) with ⟨t, m, hsv⟩ | ⟨m, hsv⟩
      · rw [hsv]
        exact ⟨by simp, fun _ => ⟨t, rfl⟩⟩
      · rw [hsv]
        exact ⟨by simp, fun h => absurd rfl h⟩

/-- Witness for C9 on a one-record batch whose both tiers errored: the
decision is human review with a null label, and the equivalence holds. -/
theorem C9_human_review_iff_null_witness :
    0 < ([errorResult] : List ClassificationResult).length ∧
    (((process_batch [errorResult] (fun _ => 1 / 2) (fun _ => errorResult)).getD 0
        { final_label := none, strategy := .human_review, margin := none }).strategy =
          .human_review ↔
      ((process_batch [errorResult] (fun _ => 1 / 2) (fun _ => errorResult)).getD 0
        { final_label := none, strategy := .human_review, margin := none }).final_label =
          none) :=
  ⟨by simp,
    (C9_human_review_iff_null [errorResult] (fun _ => 1 / 2) (fun _ => errorResult) 0
      (by simp)).1⟩
